import Mathlib

/-!
# gcs-aws-sdk-oauth2: the credential provider and the header rewriting handlers

A shallow embedding of `main.go`: `GcpTokenProvider` (`Retrieve`, `IsExpired`),
the three request handlers that `main` registers (`gcp-oauth2-signer`,
`aws-to-gcp-headers`, `gcp-to-aws-headers`) and the registration itself.

Go strings are modelled as lists of code points (`GoString`).  The Go standard
library functions the handlers call (`strings.ToLower`, `strings.HasPrefix`,
`strings.Replace`, `textproto.CanonicalMIMEHeaderKey`, `http.Header.Get`,
`Set`, `Del`) are embedded from their Go definitions.  The one part of the
library that is a data table, the Unicode lower-case mapping of the non-ASCII
code points, is a parameter `tbl` of every definition that lower-cases.

A Go map is modelled as an association list (`Header`).  The order of the list
is the order in which a `range` loop visits the keys, which Go leaves open: a
statement about every `Header` is a statement about every visiting order of the
copying loop, and what the deleting loop leaves does not depend on the order
(`find_delLoop_order`).  Entries that the copying loop creates and may or may
not visit are no-ops of that loop (`addLoop_filter`).
-/

namespace GcsAwsOauth2

/-! ## Go strings -/

/-- A Go string, as the list of its code points. -/
abbrev GoString := List Nat

/-- A string literal as a `GoString`. -/
def str (s : String) : GoString := s.toList.map Char.toNat

/-- Go `unicode.ToLower`: the ASCII range is handled in place, every other
code point goes through the Unicode case table `tbl`. -/
def unicodeToLower (tbl : Nat → Nat) (r : Nat) : Nat :=
  if r ≤ 127 then
    if 65 ≤ r ∧ r ≤ 90 then r + 32 else r
  else tbl r

/-- Go `strings.ToLower`: `unicode.ToLower` mapped over the code points. -/
def ToLower (tbl : Nat → Nat) (s : GoString) : GoString :=
  s.map (unicodeToLower tbl)

/-- Go `strings.HasPrefix`. -/
def HasPrefix (s pre : GoString) : Bool :=
  pre.isPrefixOf s

/-- Go `strings.Replace(s, old, new, 1)`: the first occurrence of `old` in `s`,
if there is one, is replaced by `new`. -/
def Replace1 : GoString → GoString → GoString → GoString
  | [], old, new => if old.isPrefixOf [] then new else []
  | c :: cs, old, new =>
    if old.isPrefixOf (c :: cs) then new ++ (c :: cs).drop old.length
    else c :: Replace1 cs old new

/-! ## `net/textproto`: canonical header keys -/

/-- Go `textproto.validHeaderFieldByte`: the bytes of an RFC 7230 token. -/
def validHeaderFieldByte (c : Nat) : Bool :=
  (48 ≤ c ∧ c ≤ 57) || (65 ≤ c ∧ c ≤ 90) || (97 ≤ c ∧ c ≤ 122) ||
  c = 33 || c = 35 || c = 36 || c = 37 || c = 38 || c = 39 || c = 42 || c = 43 ||
  c = 45 || c = 46 || c = 94 || c = 95 || c = 96 || c = 124 || c = 126

/-- The casing loop of Go `textproto.canonicalMIMEHeaderKey`: upper case for
the first letter and for a letter after a dash, lower case elsewhere. -/
def canonicalCase : Bool → GoString → GoString
  | _, [] => []
  | upper, c :: cs =>
    let c1 :=
      if upper ∧ 97 ≤ c ∧ c ≤ 122 then c - 32
      else if ¬ upper ∧ 65 ≤ c ∧ c ≤ 90 then c + 32
      else c
    c1 :: canonicalCase (c1 = 45) cs

/-- Go `textproto.CanonicalMIMEHeaderKey`: a key with a byte that is not a
token byte is returned unchanged, any other key is re-cased. -/
def CanonicalMIMEHeaderKey (s : GoString) : GoString :=
  if s.all validHeaderFieldByte then canonicalCase true s else s

/-! ## `net/http`: the header map -/

/-- A Go `map[string][]string` as an association list; the first entry of a
key is the one the map holds. -/
abbrev Header := List (GoString × List GoString)

/-- The keys of the map, in the order a `range` loop visits them. -/
def Header.keys (h : Header) : List GoString := h.map Prod.fst

/-- Map read `h[k]`. -/
def Header.find (h : Header) (k : GoString) : Option (List GoString) :=
  match h with
  | [] => none
  | (k1, v) :: rest => if k1 = k then some v else Header.find rest k

/-- Map delete `delete(h, k)`. -/
def Header.delete (h : Header) (k : GoString) : Header :=
  match h with
  | [] => []
  | (k1, v) :: rest => if k1 = k then Header.delete rest k else (k1, v) :: Header.delete rest k

/-- Map write `h[k] = v`. -/
def Header.store (h : Header) (k : GoString) (v : List GoString) : Header :=
  (k, v) :: h.delete k

/-- Go `http.Header.Get`: the first value under the canonical key, or the
empty string. -/
def Header.Get (h : Header) (key : GoString) : GoString :=
  match h.find (CanonicalMIMEHeaderKey key) with
  | some (v :: _) => v
  | _ => []

/-- Go `http.Header.Set`: the canonical key gets the single value. -/
def Header.Set (h : Header) (key value : GoString) : Header :=
  h.store (CanonicalMIMEHeaderKey key) [value]

/-- Go `http.Header.Del`: the canonical key is deleted. -/
def Header.Del (h : Header) (key : GoString) : Header :=
  h.delete (CanonicalMIMEHeaderKey key)

/-! ## The header rewriting handlers -/

/-- First loop of a rewriting handler, over the keys `ks`:
`if strings.HasPrefix(lowerKey, src) { Set(Replace(lowerKey, src, dst, 1), Get(key)) }`. -/
def addLoop (tbl : Nat → Nat) (src dst : GoString) : List GoString → Header → Header
  | [], h => h
  | key :: ks, h =>
    let lowerKey := ToLower tbl key
    if HasPrefix lowerKey src then
      let newKey := Replace1 lowerKey src dst
      addLoop tbl src dst ks (h.Set newKey (h.Get key))
    else addLoop tbl src dst ks h

/-- Second loop of a rewriting handler, over the keys `ks`:
`if strings.HasPrefix(strings.ToLower(key), src) { Del(key) }`. -/
def delLoop (tbl : Nat → Nat) (src : GoString) : List GoString → Header → Header
  | [], h => h
  | key :: ks, h =>
    if HasPrefix (ToLower tbl key) src then delLoop tbl src ks (h.Del key)
    else delLoop tbl src ks h

/-- The body shared by the two rewriting handlers of `main`, which differ in
the two prefixes only: the copying loop over the keys of the map, then the
deleting loop over the keys of the result.  Each `range` loop is run over the
keys the map has when the loop starts: the entries the first loop creates have
the `dst` prefix and fail its test, and the second loop only deletes. -/
def rewriteHeaders (tbl : Nat → Nat) (src dst : GoString) (h : Header) : Header :=
  let h1 := addLoop tbl src dst h.keys h
  delLoop tbl src h1.keys h1

/-- The `aws-to-gcp-headers` Send handler, on the request header. -/
def awsToGcpHeaders (tbl : Nat → Nat) (h : Header) : Header :=
  rewriteHeaders tbl (str "x-amz-") (str "x-goog-") h

/-- The `gcp-to-aws-headers` Send handler, on the response header. -/
def gcpToAwsHeaders (tbl : Nat → Nat) (h : Header) : Header :=
  rewriteHeaders tbl (str "x-goog-") (str "x-amz-") h

/-! ## Notions used in the statements about the handlers -/

/-- The key under which the copying loop stores the value of `key`. -/
def target (tbl : Nat → Nat) (src dst key : GoString) : GoString :=
  CanonicalMIMEHeaderKey (Replace1 (ToLower tbl key) src dst)

/-- The hypothesis on the two prefixes that the statements about
`rewriteHeaders` need: a key the copying loop writes does not carry `src`. -/
def TargetsAvoid (tbl : Nat → Nat) (src dst : GoString) : Prop :=
  ∀ k, HasPrefix (ToLower tbl k) src = true →
    HasPrefix (ToLower tbl (target tbl src dst k)) src = false

/-- Lower-casing a lower-cased code point changes nothing.  This is a property
of the Unicode case table; the ASCII range has it by definition. -/
def LowerIdempotent (tbl : Nat → Nat) : Prop :=
  ∀ r, unicodeToLower tbl (unicodeToLower tbl r) = unicodeToLower tbl r

/-! ## The credential provider -/

/-- Go `time.Time`, as the number of nanoseconds since the zero time, so that
the zero time is `0`. -/
abbrev Time := Int

/-- The fields of `oauth2.Token` the program reads. -/
structure Token where
  AccessToken : GoString
  Expiry : Time
deriving DecidableEq

/-- Go `time.Time.IsZero`. -/
def Time.IsZero (t : Time) : Bool := t = 0

/-- Go `time.Time.Before`: strictly earlier. -/
def Time.Before (t u : Time) : Bool := t < u

/-- The AWS SDK `credentials.Value`. -/
structure Value where
  AccessKeyID : GoString
  SecretAccessKey : GoString
  SessionToken : GoString
  ProviderName : GoString
deriving DecidableEq

/-- The provider: `token` is the pointer field, `none` for `nil`. -/
structure GcpTokenProvider where
  token : Option Token
deriving DecidableEq

/-- An error value. -/
abbrev Error := GoString

/-- What one run of the external token fetch does: `google.DefaultTokenSource`
fails, or it yields a token source whose `Token()` fails or yields a token. -/
abbrev Fetch := Except Error (Except Error Token)

/-- `GcpTokenProvider.Retrieve`, given what the external fetch does in this
call.  The result is the provider after the call and the returned pair
`(credentials.Value, error)`. -/
def GcpTokenProvider.Retrieve (fetch : Fetch) (p : GcpTokenProvider) :
    GcpTokenProvider × Except Error Value :=
  match fetch with
  | .error err => (p, .error err)
  | .ok tokenSource =>
    match tokenSource with
    | .error err => (p, .error err)
    | .ok token =>
      ({ token := some token },
       .ok { AccessKeyID := token.AccessToken, SecretAccessKey := [],
             SessionToken := [], ProviderName := [] })

/-- `GcpTokenProvider.IsExpired`, with `now` the value of `time.Now()`. -/
def GcpTokenProvider.IsExpired (p : GcpTokenProvider) (now : Time) : Bool :=
  match p.token with
  | none => true
  | some token =>
    if token.Expiry.IsZero then false
    else if token.Expiry.Before now then true
    else false

/-- Modelled from the spec: the credential adapter `credentials.Credentials`
of the AWS SDK, which `main` builds with `credentials.NewCredentials` and whose
code is not part of the repository.  It holds the provider, the cached value,
whether a credential still has to be fetched for the first time, and (for the
statements below) how many times the supplier has been called. -/
structure Credentials where
  provider : GcpTokenProvider
  creds : Value
  forceRefresh : Bool
  fetches : Nat
deriving DecidableEq

/-- Modelled from the spec: `credentials.NewCredentials(&GcpTokenProvider{})`,
the adapter before any fetch. -/
def NewCredentials : Credentials :=
  { provider := { token := none },
    creds := { AccessKeyID := [], SecretAccessKey := [], SessionToken := [], ProviderName := [] },
    forceRefresh := true, fetches := 0 }

/-- Modelled from the spec: the liveness test of the adapter, "no Credential
has ever been fetched, or the cached Credential's liveness check fails". -/
def Credentials.isExpired (c : Credentials) (now : Time) : Bool :=
  c.forceRefresh || c.provider.IsExpired now

/-- Modelled from the spec: `Credentials.Get` of the AWS SDK (section 4.2,
`current()`): when the liveness test fails the supplier is called and its
result cached, otherwise the cached credential is returned unchanged.
`supplier n` is what the external fetch does at its call number `n`. -/
def Credentials.Get (supplier : Nat → Fetch) (now : Time) (c : Credentials) :
    Credentials × Except Error Value :=
  if c.isExpired now then
    match c.provider.Retrieve (supplier c.fetches) with
    | (p, .ok creds) =>
      ({ provider := p, creds := creds, forceRefresh := false, fetches := c.fetches + 1 },
       .ok creds)
    | (p, .error err) =>
      ({ c with provider := p, fetches := c.fetches + 1 }, .error err)
  else (c, .ok c.creds)

/-! ## The signing handler -/

/-- The `gcp-oauth2-signer` Sign handler, on the request header.  `credValue`
is what `config.Credentials.Get()` returned; on an error the handler calls
`log.Fatalf`, which ends the process: `none`. -/
def gcpOauth2Signer (credValue : Except Error Value) (projectId : GoString)
    (h : Header) : Option Header :=
  match credValue with
  | .error _ => none
  | .ok v =>
    let h1 := h.Set (str "Authorization") (str "Bearer " ++ v.AccessKeyID)
    some (h1.Set (str "x-goog-project-id") projectId)

/-! ## Handler registration -/

/-- The AWS SDK `request.NamedHandler`, identified by its name. -/
structure NamedHandler where
  Name : String
deriving DecidableEq

/-- The AWS SDK `request.HandlerList`: the handlers in the order they run. -/
abbrev HandlerList := List NamedHandler

/-- `HandlerList.Clear`. -/
def HandlerList.Clear (_l : HandlerList) : HandlerList := []

/-- `HandlerList.PushBackNamed`. -/
def HandlerList.PushBackNamed (l : HandlerList) (n : NamedHandler) : HandlerList := l ++ [n]

/-- `HandlerList.PushFrontNamed`. -/
def HandlerList.PushFrontNamed (l : HandlerList) (n : NamedHandler) : HandlerList := n :: l

/-- The two handler lists of `svc.Handlers` that `main` changes. -/
structure Handlers where
  Sign : HandlerList
  Send : HandlerList
deriving DecidableEq

/-- `corehandlers.BuildContentLengthHandler`. -/
def BuildContentLengthHandler : NamedHandler := { Name := "core.BuildContentLengthHandler" }

/-- The handler `main` names `gcp-oauth2-signer`. -/
def gcpOauth2SignerHandler : NamedHandler := { Name := "gcp-oauth2-signer" }

/-- The handler `main` names `aws-to-gcp-headers`. -/
def awsToGcpHeadersHandler : NamedHandler := { Name := "aws-to-gcp-headers" }

/-- The handler `main` names `gcp-to-aws-headers`. -/
def gcpToAwsHeadersHandler : NamedHandler := { Name := "gcp-to-aws-headers" }

/-- The handler registration of `main`, on the handlers `s3.New` returned. -/
def registerHandlers (hs : Handlers) : Handlers :=
  let sign := hs.Sign.Clear
  let sign := sign.PushBackNamed BuildContentLengthHandler
  let sign := sign.PushBackNamed gcpOauth2SignerHandler
  let send := hs.Send.PushFrontNamed awsToGcpHeadersHandler
  let send := send.PushBackNamed gcpToAwsHeadersHandler
  { Sign := sign, Send := send }

/-- The handlers a request runs through between signing and the end of the
send phase: the Sign list, then the Send list, each from front to back. -/
def Handlers.runOrder (hs : Handlers) : List NamedHandler := hs.Sign ++ hs.Send

/-! ## The map operations, read back through `find` -/

theorem find_delete (h : Header) (k q : GoString) :
    (h.delete k).find q = if k = q then none else h.find q := by
  induction h with
  | nil => simp [Header.delete, Header.find]
  | cons e rest ih =>
    obtain ⟨k1, v⟩ := e
    by_cases h1 : k1 = k
    · subst h1
      by_cases h2 : k1 = q
      · subst h2
        simp [Header.delete, Header.find, ih]
      · simp [Header.delete, Header.find, ih, h2]
    · by_cases h2 : k = q
      · subst h2
        simp [Header.delete, Header.find, ih, h1]
      · simp [Header.delete, Header.find, ih, h1, h2]

theorem find_store (h : Header) (k q : GoString) (v : List GoString) :
    (h.store k v).find q = if k = q then some v else h.find q := by
  unfold Header.store
  by_cases h1 : k = q
  · simp [Header.find, h1]
  · simp [Header.find, h1, find_delete]

theorem find_Set (h : Header) (key value q : GoString) :
    (h.Set key value).find q
      = if CanonicalMIMEHeaderKey key = q then some [value] else h.find q := by
  unfold Header.Set
  exact find_store h _ q _

theorem find_Del (h : Header) (key q : GoString) :
    (h.Del key).find q = if CanonicalMIMEHeaderKey key = q then none else h.find q := by
  unfold Header.Del
  exact find_delete h _ q

theorem mem_keys_iff (h : Header) (q : GoString) :
    q ∈ h.keys ↔ h.find q ≠ none := by
  induction h with
  | nil => simp [Header.keys, Header.find]
  | cons e rest ih =>
    obtain ⟨k1, v⟩ := e
    by_cases h1 : k1 = q
    · simp [Header.keys, Header.find, h1]
    · have ih1 : q ∈ List.map Prod.fst rest ↔ Header.find rest q ≠ none := ih
      simp only [Header.keys, List.map_cons, List.mem_cons, Header.find, h1, if_false]
      constructor
      · rintro (h2 | h2)
        · exact absurd h2.symm h1
        · exact ih1.mp h2
      · intro h2
        exact Or.inr (ih1.mpr h2)

/-! ## Lower-casing and canonical keys -/

theorem unicodeToLower_canonicalCase_char (tbl : Nat → Nat) (upper : Prop) [Decidable upper]
    (c : Nat) :
    unicodeToLower tbl
        (if upper ∧ 97 ≤ c ∧ c ≤ 122 then c - 32
         else if ¬ upper ∧ 65 ≤ c ∧ c ≤ 90 then c + 32 else c)
      = unicodeToLower tbl c := by
  unfold unicodeToLower
  split_ifs <;> omega

theorem ToLower_canonicalCase (tbl : Nat → Nat) (s : GoString) :
    ∀ upper : Bool, ToLower tbl (canonicalCase upper s) = ToLower tbl s := by
  induction s with
  | nil => intro upper; simp [canonicalCase, ToLower]
  | cons c cs ih =>
    intro upper
    have h1 := ih (decide ((if upper = true ∧ 97 ≤ c ∧ c ≤ 122 then c - 32
        else if ¬ upper = true ∧ 65 ≤ c ∧ c ≤ 90 then c + 32 else c) = 45))
    have h2 := unicodeToLower_canonicalCase_char tbl (upper = true) c
    simp only [ToLower] at h1 ⊢
    simp only [canonicalCase, List.map_cons]
    rw [h1, h2]

/-- Lower-casing does not see the canonical re-casing of a key. -/
theorem ToLower_canonical (tbl : Nat → Nat) (s : GoString) :
    ToLower tbl (CanonicalMIMEHeaderKey s) = ToLower tbl s := by
  unfold CanonicalMIMEHeaderKey
  split_ifs
  · exact ToLower_canonicalCase tbl s true
  · rfl

/-- With the prefix in place, `strings.Replace(_, old, new, 1)` swaps the prefix. -/
theorem Replace1_of_prefix (s old new : GoString) (h : HasPrefix s old = true) :
    Replace1 s old new = new ++ s.drop old.length := by
  unfold HasPrefix at h
  cases s with
  | nil =>
    cases old with
    | nil => simp [Replace1]
    | cons a as => simp [List.isPrefixOf] at h
  | cons c cs => simp [Replace1, h]

theorem ToLower_append (tbl : Nat → Nat) (s t : GoString) :
    ToLower tbl (s ++ t) = ToLower tbl s ++ ToLower tbl t := by
  simp [ToLower]

/-- No key the `aws-to-gcp-headers` loop writes has the `x-amz-` prefix. -/
theorem target_goog_not_amz (tbl : Nat → Nat) (key : GoString)
    (h : HasPrefix (ToLower tbl key) (str "x-amz-") = true) :
    HasPrefix (ToLower tbl (target tbl (str "x-amz-") (str "x-goog-") key)) (str "x-amz-")
      = false := by
  unfold target
  rw [ToLower_canonical, Replace1_of_prefix _ _ _ h, ToLower_append]
  simp [HasPrefix, str, ToLower, unicodeToLower, List.isPrefixOf]

/-- No key the `gcp-to-aws-headers` loop writes has the `x-goog-` prefix. -/
theorem target_amz_not_goog (tbl : Nat → Nat) (key : GoString)
    (h : HasPrefix (ToLower tbl key) (str "x-goog-") = true) :
    HasPrefix (ToLower tbl (target tbl (str "x-goog-") (str "x-amz-") key)) (str "x-goog-")
      = false := by
  unfold target
  rw [ToLower_canonical, Replace1_of_prefix _ _ _ h, ToLower_append]
  simp [HasPrefix, str, ToLower, unicodeToLower, List.isPrefixOf]

/-! ## The two loops, read back through `find` -/

/-- The copying loop leaves alone every key that is not the target of a key it visits. -/
theorem find_addLoop_frame (tbl : Nat → Nat) (src dst q : GoString) :
    ∀ (ks : List GoString) (h : Header),
      (∀ k ∈ ks, HasPrefix (ToLower tbl k) src = true → target tbl src dst k ≠ q) →
      (addLoop tbl src dst ks h).find q = h.find q := by
  intro ks
  induction ks with
  | nil => intro h _; rfl
  | cons k ks ih =>
    intro h hq
    have hks : ∀ k1 ∈ ks, HasPrefix (ToLower tbl k1) src = true → target tbl src dst k1 ≠ q :=
      fun k1 hk1 => hq k1 (List.mem_cons_of_mem _ hk1)
    by_cases hp : HasPrefix (ToLower tbl k) src = true
    · have hne : CanonicalMIMEHeaderKey (Replace1 (ToLower tbl k) src dst) ≠ q :=
        hq k (List.mem_cons_self _ _) hp
      simp only [addLoop, hp, if_true]
      rw [ih _ hks, find_Set, if_neg hne]
    · simp only [addLoop, hp]
      exact ih h hks

/-- A key that carries the `src` prefix is never the target of a visited key. -/
theorem target_ne_canonical (tbl : Nat → Nat) (src dst : GoString)
    (hdst : ∀ k, HasPrefix (ToLower tbl k) src = true →
      HasPrefix (ToLower tbl (target tbl src dst k)) src = false)
    (k q : GoString) (hk : HasPrefix (ToLower tbl k) src = true)
    (hq : HasPrefix (ToLower tbl q) src = true) :
    target tbl src dst k ≠ CanonicalMIMEHeaderKey q := by
  intro heq
  have h1 := hdst k hk
  rw [heq, ToLower_canonical, hq] at h1
  exact Bool.noConfusion h1

theorem Get_congr (h1 h2 : Header) (key : GoString)
    (h : h1.find (CanonicalMIMEHeaderKey key) = h2.find (CanonicalMIMEHeaderKey key)) :
    h1.Get key = h2.Get key := by
  unfold Header.Get
  rw [h]

/-- The copying loop stores, under the target of the visited keys, the first
value of the header they name, when they all name the same header value. -/
theorem find_addLoop_target (tbl : Nat → Nat) (src dst : GoString)
    (hdst : ∀ k, HasPrefix (ToLower tbl k) src = true →
      HasPrefix (ToLower tbl (target tbl src dst k)) src = false)
    (q v : GoString) :
    ∀ (ks : List GoString) (h : Header),
      (∃ k ∈ ks, HasPrefix (ToLower tbl k) src = true ∧ target tbl src dst k = q) →
      (∀ k ∈ ks, HasPrefix (ToLower tbl k) src = true → target tbl src dst k = q →
        h.Get k = v) →
      (addLoop tbl src dst ks h).find q = some [v] := by
  intro ks
  induction ks with
  | nil => intro h hex _; obtain ⟨k, hk, _⟩ := hex; cases hk
  | cons k ks ih =>
    intro h hex hall
    by_cases hp : HasPrefix (ToLower tbl k) src = true
    · simp only [addLoop, hp, if_true]
      have hall1 : ∀ k1 ∈ ks, HasPrefix (ToLower tbl k1) src = true →
          target tbl src dst k1 = q →
          (h.Set (Replace1 (ToLower tbl k) src dst) (h.Get k)).Get k1 = v := by
        intro k1 hk1 hp1 ht1
        rw [← hall k1 (List.mem_cons_of_mem _ hk1) hp1 ht1]
        apply Get_congr
        have hne : CanonicalMIMEHeaderKey (Replace1 (ToLower tbl k) src dst)
            ≠ CanonicalMIMEHeaderKey k1 := target_ne_canonical tbl src dst hdst k k1 hp hp1
        rw [find_Set, if_neg hne]
      by_cases hlater : ∃ k1 ∈ ks, HasPrefix (ToLower tbl k1) src = true ∧
          target tbl src dst k1 = q
      · exact ih _ hlater hall1
      · have hfr : ∀ k1 ∈ ks, HasPrefix (ToLower tbl k1) src = true →
            target tbl src dst k1 ≠ q := by
          intro k1 hk1 hp1 ht1
          exact hlater ⟨k1, hk1, hp1, ht1⟩
        have hkq : target tbl src dst k = q := by
          obtain ⟨k0, hk0, hp0, ht0⟩ := hex
          rcases List.mem_cons.mp hk0 with h0 | h0
          · rw [← h0]; exact ht0
          · exact absurd ht0 (hfr k0 h0 hp0)
        rw [find_addLoop_frame tbl src dst q ks _ hfr, find_Set]
        have hkq1 : CanonicalMIMEHeaderKey (Replace1 (ToLower tbl k) src dst) = q := hkq
        rw [if_pos hkq1, hall k (List.mem_cons_self _ _) hp hkq]
    · simp only [addLoop, hp]
      have hex1 : ∃ k1 ∈ ks, HasPrefix (ToLower tbl k1) src = true ∧
          target tbl src dst k1 = q := by
        obtain ⟨k0, hk0, hp0, ht0⟩ := hex
        rcases List.mem_cons.mp hk0 with h0 | h0
        · rw [h0] at hp0; exact absurd hp0 hp
        · exact ⟨k0, h0, hp0, ht0⟩
      exact ih h hex1 (fun k1 hk1 => hall k1 (List.mem_cons_of_mem _ hk1))

/-- The copying loop leaves a single value under the target of every key with
the `src` prefix that it visits. -/
theorem find_addLoop_written (tbl : Nat → Nat) (src dst q : GoString) :
    ∀ (ks : List GoString) (h : Header),
      (∃ k ∈ ks, HasPrefix (ToLower tbl k) src = true ∧ target tbl src dst k = q) →
      ∃ v, (addLoop tbl src dst ks h).find q = some [v] := by
  intro ks
  induction ks with
  | nil => intro h hex; obtain ⟨k, hk, _⟩ := hex; cases hk
  | cons k ks ih =>
    intro h hex
    by_cases hlater : ∃ k1 ∈ ks, HasPrefix (ToLower tbl k1) src = true ∧
        target tbl src dst k1 = q
    · by_cases hp : HasPrefix (ToLower tbl k) src = true
      · simp only [addLoop, hp, if_true]
        exact ih _ hlater
      · simp only [addLoop, hp]
        exact ih h hlater
    · have hfr : ∀ k1 ∈ ks, HasPrefix (ToLower tbl k1) src = true →
          target tbl src dst k1 ≠ q := by
        intro k1 hk1 hp1 ht1
        exact hlater ⟨k1, hk1, hp1, ht1⟩
      obtain ⟨k0, hk0, hp0, ht0⟩ := hex
      rcases List.mem_cons.mp hk0 with h0 | h0
      · rw [h0] at hp0 ht0
        have hkq : CanonicalMIMEHeaderKey (Replace1 (ToLower tbl k) src dst) = q := ht0
        simp only [addLoop, hp0, if_true]
        rw [find_addLoop_frame tbl src dst q ks _ hfr, find_Set, if_pos hkq]
        exact ⟨_, rfl⟩
      · exact absurd ht0 (hfr k0 h0 hp0)

/-- A key the deleting loop is asked to delete is gone. -/
theorem find_delLoop_deleted (tbl : Nat → Nat) (src q : GoString) :
    ∀ (ks : List GoString) (h : Header),
      (∃ k ∈ ks, HasPrefix (ToLower tbl k) src = true ∧ CanonicalMIMEHeaderKey k = q) →
      (delLoop tbl src ks h).find q = none := by
  intro ks
  induction ks with
  | nil => intro h hex; obtain ⟨k, hk, _⟩ := hex; cases hk
  | cons k ks ih =>
    intro h hex
    have hmono : ∀ (ks1 : List GoString) (h1 : Header), h1.find q = none →
        (delLoop tbl src ks1 h1).find q = none := by
      intro ks1
      induction ks1 with
      | nil => intro h1 hn; exact hn
      | cons k1 ks1 ih1 =>
        intro h1 hn
        by_cases hp1 : HasPrefix (ToLower tbl k1) src = true
        · simp only [delLoop, hp1, if_true]
          apply ih1
          rw [find_Del]
          split_ifs
          · rfl
          · exact hn
        · simp only [delLoop, hp1]
          exact ih1 h1 hn
    by_cases hp : HasPrefix (ToLower tbl k) src = true
    · simp only [delLoop, hp, if_true]
      by_cases hkq : CanonicalMIMEHeaderKey k = q
      · apply hmono
        rw [find_Del, if_pos hkq]
      · apply ih
        obtain ⟨k0, hk0, hp0, ht0⟩ := hex
        rcases List.mem_cons.mp hk0 with h0 | h0
        · rw [h0] at ht0; exact absurd ht0 hkq
        · exact ⟨k0, h0, hp0, ht0⟩
    · simp only [delLoop, hp]
      apply ih
      obtain ⟨k0, hk0, hp0, ht0⟩ := hex
      rcases List.mem_cons.mp hk0 with h0 | h0
      · rw [h0] at hp0; exact absurd hp0 hp
      · exact ⟨k0, h0, hp0, ht0⟩

/-- A key the deleting loop is not asked to delete is left alone. -/
theorem find_delLoop_frame (tbl : Nat → Nat) (src q : GoString) :
    ∀ (ks : List GoString) (h : Header),
      (∀ k ∈ ks, HasPrefix (ToLower tbl k) src = true → CanonicalMIMEHeaderKey k ≠ q) →
      (delLoop tbl src ks h).find q = h.find q := by
  intro ks
  induction ks with
  | nil => intro h _; rfl
  | cons k ks ih =>
    intro h hq
    have hks : ∀ k1 ∈ ks, HasPrefix (ToLower tbl k1) src = true →
        CanonicalMIMEHeaderKey k1 ≠ q :=
      fun k1 hk1 => hq k1 (List.mem_cons_of_mem _ hk1)
    by_cases hp : HasPrefix (ToLower tbl k) src = true
    · simp only [delLoop, hp, if_true]
      rw [ih _ hks, find_Del, if_neg (hq k (List.mem_cons_self _ _) hp)]
    · simp only [delLoop, hp]
      exact ih h hks

/-- What the deleting loop still holds, the map held before. -/
theorem find_delLoop_none (tbl : Nat → Nat) (src q : GoString) :
    ∀ (ks : List GoString) (h : Header), h.find q = none →
      (delLoop tbl src ks h).find q = none := by
  intro ks
  induction ks with
  | nil => intro h hn; exact hn
  | cons k ks ih =>
    intro h hn
    by_cases hp : HasPrefix (ToLower tbl k) src = true
    · simp only [delLoop, hp, if_true]
      apply ih
      rw [find_Del]
      split_ifs
      · rfl
      · exact hn
    · simp only [delLoop, hp]
      exact ih h hn

/-! ## The rewriting handler as a whole -/

theorem target_ne_of_prefix (tbl : Nat → Nat) (src dst : GoString)
    (hdst : TargetsAvoid tbl src dst)
    (k q : GoString) (hk : HasPrefix (ToLower tbl k) src = true)
    (hq : HasPrefix (ToLower tbl q) src = true) :
    target tbl src dst k ≠ q := by
  intro heq
  have h1 := hdst k hk
  rw [heq, hq] at h1
  exact Bool.noConfusion h1

/-- The copying loop does not touch the headers that carry `src`. -/
theorem find_addLoop_src (tbl : Nat → Nat) (src dst : GoString)
    (hdst : TargetsAvoid tbl src dst) (ks : List GoString) (h : Header) (q : GoString)
    (hq : HasPrefix (ToLower tbl q) src = true) :
    (addLoop tbl src dst ks h).find q = h.find q :=
  find_addLoop_frame tbl src dst q ks h
    (fun k _ hk => target_ne_of_prefix tbl src dst hdst k q hk hq)

/-- The keys with the `src` prefix that the deleting loop visits are keys of
the map the handler was given. -/
theorem mem_keys_addLoop_src (tbl : Nat → Nat) (src dst : GoString)
    (hdst : TargetsAvoid tbl src dst) (h : Header) (q : GoString)
    (hq : HasPrefix (ToLower tbl q) src = true) :
    q ∈ (addLoop tbl src dst h.keys h).keys ↔ q ∈ h.keys := by
  rw [mem_keys_iff, mem_keys_iff, find_addLoop_src tbl src dst hdst h.keys h q hq]

/-- A header the handler copies: under the target key the result holds the
single value `v`, when every stored key with that target names a header whose
first value is `v`. -/
theorem find_rewrite_target (tbl : Nat → Nat) (src dst : GoString)
    (hdst : TargetsAvoid tbl src dst) (h : Header) (k v : GoString)
    (hk : k ∈ h.keys) (hp : HasPrefix (ToLower tbl k) src = true)
    (hall : ∀ k1 ∈ h.keys, HasPrefix (ToLower tbl k1) src = true →
      target tbl src dst k1 = target tbl src dst k → h.Get k1 = v) :
    (rewriteHeaders tbl src dst h).find (target tbl src dst k) = some [v] := by
  unfold rewriteHeaders
  simp only []
  rw [find_delLoop_frame]
  · exact find_addLoop_target tbl src dst hdst (target tbl src dst k) v h.keys h
      ⟨k, hk, hp, rfl⟩ hall
  · intro k1 _ hp1 heq
    have h1 := hdst k hp
    rw [← heq, ToLower_canonical, hp1] at h1
    exact Bool.noConfusion h1

/-- Every stored key with the `src` prefix leaves a header under its target. -/
theorem mem_keys_rewrite_target (tbl : Nat → Nat) (src dst : GoString)
    (hdst : TargetsAvoid tbl src dst) (h : Header) (k : GoString)
    (hk : k ∈ h.keys) (hp : HasPrefix (ToLower tbl k) src = true) :
    target tbl src dst k ∈ (rewriteHeaders tbl src dst h).keys := by
  rw [mem_keys_iff]
  unfold rewriteHeaders
  simp only []
  rw [find_delLoop_frame]
  · obtain ⟨v, hv⟩ := find_addLoop_written tbl src dst (target tbl src dst k) h.keys h
      ⟨k, hk, hp, rfl⟩
    rw [hv]
    exact Option.some_ne_none _
  · intro k1 _ hp1 heq
    have h1 := hdst k hp
    rw [← heq, ToLower_canonical, hp1] at h1
    exact Bool.noConfusion h1

/-- A stored key with the `src` prefix: its canonical key is gone. -/
theorem find_rewrite_deleted (tbl : Nat → Nat) (src dst : GoString)
    (hdst : TargetsAvoid tbl src dst) (h : Header) (k : GoString)
    (hk : k ∈ h.keys) (hp : HasPrefix (ToLower tbl k) src = true) :
    (rewriteHeaders tbl src dst h).find (CanonicalMIMEHeaderKey k) = none := by
  unfold rewriteHeaders
  simp only []
  apply find_delLoop_deleted
  exact ⟨k, (mem_keys_addLoop_src tbl src dst hdst h k hp).mpr hk, hp, rfl⟩

/-- A key that is neither a target of the copying loop nor the canonical key
of a stored key with the `src` prefix keeps its values. -/
theorem find_rewrite_frame (tbl : Nat → Nat) (src dst : GoString)
    (hdst : TargetsAvoid tbl src dst) (h : Header) (q : GoString)
    (ht : ∀ k ∈ h.keys, HasPrefix (ToLower tbl k) src = true → target tbl src dst k ≠ q)
    (hd : ∀ k ∈ h.keys, HasPrefix (ToLower tbl k) src = true → CanonicalMIMEHeaderKey k ≠ q) :
    (rewriteHeaders tbl src dst h).find q = h.find q := by
  unfold rewriteHeaders
  simp only []
  rw [find_delLoop_frame, find_addLoop_frame tbl src dst q h.keys h ht]
  intro k hk hp
  exact hd k ((mem_keys_addLoop_src tbl src dst hdst h k hp).mp hk) hp

/-- When the stored keys with the `src` prefix are canonical, no key of the
result carries `src`. -/
theorem rewrite_no_src (tbl : Nat → Nat) (src dst : GoString)
    (hdst : TargetsAvoid tbl src dst) (h : Header)
    (hcanon : ∀ k ∈ h.keys, HasPrefix (ToLower tbl k) src = true →
      CanonicalMIMEHeaderKey k = k)
    (q : GoString) (hq : q ∈ (rewriteHeaders tbl src dst h).keys) :
    HasPrefix (ToLower tbl q) src = false := by
  by_contra hp0
  have hp : HasPrefix (ToLower tbl q) src = true := by
    cases hb : HasPrefix (ToLower tbl q) src
    · exact absurd hb hp0
    · rfl
  rw [mem_keys_iff] at hq
  by_cases hmem : q ∈ h.keys
  · have h1 := find_rewrite_deleted tbl src dst hdst h q hmem hp
    rw [hcanon q hmem hp] at h1
    exact hq h1
  · apply hq
    unfold rewriteHeaders
    simp only []
    apply find_delLoop_none
    rw [find_addLoop_src tbl src dst hdst h.keys h q hp]
    by_contra hne
    exact hmem ((mem_keys_iff h q).mpr hne)

/-! ## Names that differ by letter case only -/

theorem ToLower_idem (tbl : Nat → Nat) (hid : LowerIdempotent tbl) (s : GoString) :
    ToLower tbl (ToLower tbl s) = ToLower tbl s := by
  unfold ToLower
  rw [List.map_map]
  apply List.map_congr_left
  intro r _
  exact hid r

theorem eq_append_of_HasPrefix (s pre : GoString) (h : HasPrefix s pre = true) :
    s = pre ++ s.drop pre.length := by
  unfold HasPrefix at h
  exact (List.prefix_iff_eq_append.mp (List.isPrefixOf_iff_prefix.mp h)).symm

theorem ToLower_target (tbl : Nat → Nat) (src dst k : GoString)
    (hp : HasPrefix (ToLower tbl k) src = true) :
    ToLower tbl (target tbl src dst k)
      = ToLower tbl dst ++ ToLower tbl ((ToLower tbl k).drop src.length) := by
  unfold target
  rw [ToLower_canonical, Replace1_of_prefix _ _ _ hp, ToLower_append]

/-- Two keys with the same target are equal up to letter case. -/
theorem ToLower_eq_of_target_eq (tbl : Nat → Nat) (hid : LowerIdempotent tbl)
    (src dst k k1 : GoString)
    (hp : HasPrefix (ToLower tbl k) src = true)
    (hp1 : HasPrefix (ToLower tbl k1) src = true)
    (heq : target tbl src dst k1 = target tbl src dst k) :
    ToLower tbl k1 = ToLower tbl k := by
  have h1 := congrArg (ToLower tbl) heq
  rw [ToLower_target tbl src dst k hp, ToLower_target tbl src dst k1 hp1] at h1
  have h2 := List.append_cancel_left h1
  have h3 : ∀ x : GoString, ToLower tbl ((ToLower tbl x).drop src.length)
      = (ToLower tbl x).drop src.length := by
    intro x
    unfold ToLower
    rw [List.map_drop]
    have := ToLower_idem tbl hid x
    unfold ToLower at this
    rw [this]
  rw [h3, h3] at h2
  rw [eq_append_of_HasPrefix _ _ hp, eq_append_of_HasPrefix _ _ hp1, h2]

theorem LowerIdempotent_id : LowerIdempotent (fun r => r) := by
  intro r
  simp only [unicodeToLower]
  split_ifs <;> omega

theorem Get_eq_headD (h : Header) (k : GoString) (vs : List GoString)
    (hf : h.find (CanonicalMIMEHeaderKey k) = some vs) : h.Get k = vs.headD [] := by
  unfold Header.Get
  rw [hf]
  cases vs <;> rfl

theorem avoid_amz_goog (tbl : Nat → Nat) : TargetsAvoid tbl (str "x-amz-") (str "x-goog-") :=
  fun k hk => target_goog_not_amz tbl k hk

theorem avoid_goog_amz (tbl : Nat → Nat) : TargetsAvoid tbl (str "x-goog-") (str "x-amz-") :=
  fun k hk => target_amz_not_goog tbl k hk

/-- The copied header, for a stored canonical key `k` that is the only stored
spelling of its name. -/
theorem find_rewrite_renamed (tbl : Nat → Nat) (hid : LowerIdempotent tbl)
    (src dst : GoString) (hdst : TargetsAvoid tbl src dst)
    (h : Header) (k : GoString) (vs : List GoString)
    (hfind : h.find k = some vs)
    (hp : HasPrefix (ToLower tbl k) src = true)
    (hcanon : CanonicalMIMEHeaderKey k = k)
    (hsame : ∀ k1 ∈ h.keys, ToLower tbl k1 = ToLower tbl k → CanonicalMIMEHeaderKey k1 = k) :
    (rewriteHeaders tbl src dst h).find (target tbl src dst k) = some [vs.headD []] ∧
    (rewriteHeaders tbl src dst h).find k = none := by
  have hk : k ∈ h.keys := by
    rw [mem_keys_iff, hfind]
    exact Option.some_ne_none vs
  constructor
  · apply find_rewrite_target tbl src dst hdst h k _ hk hp
    intro k1 hk1 hp1 heq
    have hc1 := hsame k1 hk1 (ToLower_eq_of_target_eq tbl hid src dst k k1 hp hp1 heq)
    apply Get_eq_headD
    rw [hc1]
    exact hfind
  · have h1 := find_rewrite_deleted tbl src dst hdst h k hk hp
    rw [hcanon] at h1
    exact h1

theorem mem_keys_Set (h : Header) (key value q : GoString)
    (hq : q ∈ (h.Set key value).keys) : q = CanonicalMIMEHeaderKey key ∨ q ∈ h.keys := by
  rw [mem_keys_iff, find_Set] at hq
  by_cases heq : CanonicalMIMEHeaderKey key = q
  · exact Or.inl heq.symm
  · rw [if_neg heq] at hq
    exact Or.inr ((mem_keys_iff h q).mpr hq)

theorem ToLower_amz (tbl : Nat → Nat) : ToLower tbl (str "x-amz-") = str "x-amz-" := by
  simp [str, ToLower, unicodeToLower]

theorem ToLower_goog (tbl : Nat → Nat) : ToLower tbl (str "x-goog-") = str "x-goog-" := by
  simp [str, ToLower, unicodeToLower]

/-- The lower-cased target is the lower-cased key with the prefix swapped. -/
theorem ToLower_target_idem (tbl : Nat → Nat) (hid : LowerIdempotent tbl)
    (src dst k : GoString) (hdstl : ToLower tbl dst = dst)
    (hp : HasPrefix (ToLower tbl k) src = true) :
    ToLower tbl (target tbl src dst k) = dst ++ (ToLower tbl k).drop src.length := by
  rw [ToLower_target tbl src dst k hp, hdstl]
  congr 1
  unfold ToLower
  rw [List.map_drop]
  have := ToLower_idem tbl hid k
  unfold ToLower at this
  rw [this]

theorem target_has_dst_prefix (tbl : Nat → Nat) (src dst k : GoString)
    (hdstl : ToLower tbl dst = dst) (hp : HasPrefix (ToLower tbl k) src = true) :
    HasPrefix (ToLower tbl (target tbl src dst k)) dst = true := by
  rw [ToLower_target tbl src dst k hp, hdstl]
  unfold HasPrefix
  exact List.isPrefixOf_iff_prefix.mpr (List.prefix_append _ _)

/-- A header whose name carries neither prefix keeps its values. -/
theorem find_rewrite_other (tbl : Nat → Nat) (src dst : GoString)
    (hdst : TargetsAvoid tbl src dst) (hdstl : ToLower tbl dst = dst)
    (h : Header) (q : GoString)
    (hqs : HasPrefix (ToLower tbl q) src = false)
    (hqd : HasPrefix (ToLower tbl q) dst = false) :
    (rewriteHeaders tbl src dst h).find q = h.find q := by
  apply find_rewrite_frame tbl src dst hdst h q
  · intro k _ hp heq
    have h1 := target_has_dst_prefix tbl src dst k hdstl hp
    rw [heq, hqd] at h1
    exact Bool.noConfusion h1
  · intro k _ hp heq
    rw [← heq, ToLower_canonical, hp] at hqs
    exact Bool.noConfusion hqs

theorem validHeaderFieldByte_recase (upper : Prop) [Decidable upper] (c : Nat) :
    validHeaderFieldByte
        (if upper ∧ 97 ≤ c ∧ c ≤ 122 then c - 32
         else if ¬ upper ∧ 65 ≤ c ∧ c ≤ 90 then c + 32 else c)
      = validHeaderFieldByte c := by
  have hiff : ∀ a b : Nat, (validHeaderFieldByte a = true ↔ validHeaderFieldByte b = true) →
      validHeaderFieldByte a = validHeaderFieldByte b := by
    intro a b hab
    cases ha : validHeaderFieldByte a <;> cases hb : validHeaderFieldByte b <;> simp_all
  apply hiff
  simp only [validHeaderFieldByte, Bool.or_eq_true, decide_eq_true_eq]
  split_ifs <;> omega

theorem all_valid_canonicalCase (s : GoString) :
    ∀ upper : Bool, (canonicalCase upper s).all validHeaderFieldByte
      = s.all validHeaderFieldByte := by
  induction s with
  | nil => intro upper; rfl
  | cons c cs ih =>
    intro upper
    simp only [canonicalCase, List.all_cons]
    rw [ih, validHeaderFieldByte_recase (upper = true) c]

theorem canonicalCase_idem (s : GoString) :
    ∀ upper : Bool, canonicalCase upper (canonicalCase upper s) = canonicalCase upper s := by
  induction s with
  | nil => intro upper; rfl
  | cons c cs ih =>
    intro upper
    simp only [canonicalCase]
    have hc : (if upper = true ∧ 97 ≤ (if upper = true ∧ 97 ≤ c ∧ c ≤ 122 then c - 32
          else if ¬ upper = true ∧ 65 ≤ c ∧ c ≤ 90 then c + 32 else c) ∧
          (if upper = true ∧ 97 ≤ c ∧ c ≤ 122 then c - 32
          else if ¬ upper = true ∧ 65 ≤ c ∧ c ≤ 90 then c + 32 else c) ≤ 122
        then (if upper = true ∧ 97 ≤ c ∧ c ≤ 122 then c - 32
          else if ¬ upper = true ∧ 65 ≤ c ∧ c ≤ 90 then c + 32 else c) - 32
        else if ¬ upper = true ∧ 65 ≤ (if upper = true ∧ 97 ≤ c ∧ c ≤ 122 then c - 32
          else if ¬ upper = true ∧ 65 ≤ c ∧ c ≤ 90 then c + 32 else c) ∧
          (if upper = true ∧ 97 ≤ c ∧ c ≤ 122 then c - 32
          else if ¬ upper = true ∧ 65 ≤ c ∧ c ≤ 90 then c + 32 else c) ≤ 90
        then (if upper = true ∧ 97 ≤ c ∧ c ≤ 122 then c - 32
          else if ¬ upper = true ∧ 65 ≤ c ∧ c ≤ 90 then c + 32 else c) + 32
        else (if upper = true ∧ 97 ≤ c ∧ c ≤ 122 then c - 32
          else if ¬ upper = true ∧ 65 ≤ c ∧ c ≤ 90 then c + 32 else c))
        = (if upper = true ∧ 97 ≤ c ∧ c ≤ 122 then c - 32
          else if ¬ upper = true ∧ 65 ≤ c ∧ c ≤ 90 then c + 32 else c) := by
      cases upper
      · simp only [Bool.false_eq_true, false_and, not_false_eq_true, true_and, if_false]
        split_ifs <;> omega
      · simp only [true_and, not_true_eq_false, false_and, if_false]
        split_ifs <;> omega
    rw [hc, ih]

/-- `CanonicalMIMEHeaderKey` is idempotent. -/
theorem canonical_idem (s : GoString) :
    CanonicalMIMEHeaderKey (CanonicalMIMEHeaderKey s) = CanonicalMIMEHeaderKey s := by
  unfold CanonicalMIMEHeaderKey
  by_cases hv : s.all validHeaderFieldByte = true
  · rw [if_pos hv, all_valid_canonicalCase, if_pos hv, canonicalCase_idem]
  · rw [if_neg hv, if_neg hv]

theorem target_canonical (tbl : Nat → Nat) (src dst k : GoString) :
    target tbl src dst (CanonicalMIMEHeaderKey k) = target tbl src dst k := by
  unfold target
  rw [ToLower_canonical]

theorem canonical_target (tbl : Nat → Nat) (src dst k : GoString) :
    CanonicalMIMEHeaderKey (target tbl src dst k) = target tbl src dst k := by
  unfold target
  exact canonical_idem _

/-! ## The visiting order of the `range` loops, and maps of canonical tokens -/

/-- Keys without the `src` prefix are no-ops of the copying loop: it does not
matter whether the loop visits the entries it creates. -/
theorem addLoop_filter (tbl : Nat → Nat) (src dst : GoString) :
    ∀ (ks : List GoString) (h : Header),
      addLoop tbl src dst (ks.filter (fun k => HasPrefix (ToLower tbl k) src)) h
        = addLoop tbl src dst ks h := by
  intro ks
  induction ks with
  | nil => intro h; rfl
  | cons k ks ih =>
    intro h
    by_cases hp : HasPrefix (ToLower tbl k) src = true
    · simp only [List.filter, hp, addLoop, if_true]
      exact ih _
    · have hp1 : HasPrefix (ToLower tbl k) src = false := by
        cases hb : HasPrefix (ToLower tbl k) src
        · rfl
        · exact absurd hb hp
      simp only [List.filter, hp1, addLoop]
      simpa using ih h

/-- What the deleting loop leaves depends on the set of visited keys only, not
on the order of the visit. -/
theorem find_delLoop_order (tbl : Nat → Nat) (src q : GoString) (ks1 ks2 : List GoString)
    (h : Header) (hmem : ∀ k, k ∈ ks1 ↔ k ∈ ks2) :
    (delLoop tbl src ks1 h).find q = (delLoop tbl src ks2 h).find q := by
  by_cases hex : ∃ k ∈ ks1, HasPrefix (ToLower tbl k) src = true ∧ CanonicalMIMEHeaderKey k = q
  · rw [find_delLoop_deleted tbl src q ks1 h hex]
    obtain ⟨k, hk, hp, hc⟩ := hex
    rw [find_delLoop_deleted tbl src q ks2 h ⟨k, (hmem k).mp hk, hp, hc⟩]
  · rw [find_delLoop_frame tbl src q ks1 h (fun k hk hp hc => hex ⟨k, hk, hp, hc⟩),
      find_delLoop_frame tbl src q ks2 h
        (fun k hk hp hc => hex ⟨k, (hmem k).mpr hk, hp, hc⟩)]

theorem le_127_of_valid (c : Nat) (hv : validHeaderFieldByte c = true) : c ≤ 127 := by
  simp only [validHeaderFieldByte, Bool.or_eq_true, decide_eq_true_eq] at hv
  omega

theorem canonicalCase_ToLower (tbl : Nat → Nat) (s : GoString) :
    ∀ upper : Bool, (∀ c ∈ s, c ≤ 127) →
      canonicalCase upper (ToLower tbl s) = canonicalCase upper s := by
  induction s with
  | nil => intro upper _; rfl
  | cons c cs ih =>
    intro upper hs
    have hc : c ≤ 127 := hs c (List.mem_cons_self _ _)
    have hcs : ∀ c1 ∈ cs, c1 ≤ 127 := fun c1 h1 => hs c1 (List.mem_cons_of_mem _ h1)
    have hch : (if upper = true ∧ 97 ≤ unicodeToLower tbl c ∧ unicodeToLower tbl c ≤ 122
          then unicodeToLower tbl c - 32
        else if ¬ upper = true ∧ 65 ≤ unicodeToLower tbl c ∧ unicodeToLower tbl c ≤ 90
          then unicodeToLower tbl c + 32
        else unicodeToLower tbl c)
        = (if upper = true ∧ 97 ≤ c ∧ c ≤ 122 then c - 32
          else if ¬ upper = true ∧ 65 ≤ c ∧ c ≤ 90 then c + 32 else c) := by
      simp only [unicodeToLower, hc, if_true]
      cases upper
      · simp only [Bool.false_eq_true, false_and, not_false_eq_true, true_and, if_false]
        split_ifs <;> omega
      · simp only [true_and, not_true_eq_false, false_and, if_false]
        split_ifs <;> omega
    have ih1 := fun b => ih b hcs
    simp only [ToLower] at ih1 ⊢
    simp only [List.map_cons, canonicalCase]
    rw [hch, ih1]

/-- Two tokens that are equal up to letter case have the same canonical key. -/
theorem canonical_eq_of_ToLower_eq (tbl : Nat → Nat) (k k1 : GoString)
    (hk : k.all validHeaderFieldByte = true) (hk1 : k1.all validHeaderFieldByte = true)
    (hl : ToLower tbl k1 = ToLower tbl k) :
    CanonicalMIMEHeaderKey k1 = CanonicalMIMEHeaderKey k := by
  have hle : ∀ s : GoString, s.all validHeaderFieldByte = true → ∀ c ∈ s, c ≤ 127 := by
    intro s hs c hc
    exact le_127_of_valid c (List.all_eq_true.mp hs c hc)
  unfold CanonicalMIMEHeaderKey
  rw [if_pos hk, if_pos hk1, ← canonicalCase_ToLower tbl k1 true (hle k1 hk1),
    ← canonicalCase_ToLower tbl k true (hle k hk), hl]

/-- In a map whose stored names are tokens in canonical form, as `Header.Set`
and `Header.Add` build it from token names, every name has a single stored
spelling. -/
theorem single_spelling_of_tokens (tbl : Nat → Nat) (h : Header)
    (htok : ∀ k ∈ h.keys, k.all validHeaderFieldByte = true ∧ CanonicalMIMEHeaderKey k = k)
    (k : GoString) (hk : k ∈ h.keys) (k1 : GoString) (hk1 : k1 ∈ h.keys)
    (hl : ToLower tbl k1 = ToLower tbl k) : k1 = k := by
  have h1 := canonical_eq_of_ToLower_eq tbl k k1 (htok k hk).1 (htok k1 hk1).1 hl
  rw [(htok k hk).2, (htok k1 hk1).2] at h1
  exact h1

/-! ## The scenarios of the spec, evaluated -/

/-- The outbound scenario: with the token `tok1` and the project `p1`, the
request headers `{X-Amz-Acl: private, X-Amz-Meta-Key01: foo}` come out of the
signer and `aws-to-gcp-headers` as `Authorization`, `X-Goog-Project-Id`,
`X-Goog-Acl` and `X-Goog-Meta-Key01`, with no `X-Amz-` key left. -/
theorem scenario_outbound :
    (gcpOauth2Signer
        (.ok { AccessKeyID := str "tok1", SecretAccessKey := [], SessionToken := [],
               ProviderName := [] })
        (str "p1")
        [(str "X-Amz-Acl", [str "private"]), (str "X-Amz-Meta-Key01", [str "foo"])]).map
      (awsToGcpHeaders (fun r => r))
      = some [(str "X-Goog-Meta-Key01", [str "foo"]), (str "X-Goog-Acl", [str "private"]),
              (str "X-Goog-Project-Id", [str "p1"]), (str "Authorization", [str "Bearer tok1"])] := by
  decide

/-- The inbound scenario: `{X-Goog-Generation: 17}` becomes `{X-Amz-Generation: 17}`. -/
theorem scenario_inbound :
    gcpToAwsHeaders (fun r => r) [(str "X-Goog-Generation", [str "17"])]
      = [(str "X-Amz-Generation", [str "17"])] := by
  decide

/-- The expiry scenario: a cached token that expired one second ago makes the
adapter call the supplier again. -/
theorem scenario_expired_refetch :
    (Credentials.Get (fun _ => .ok (.ok { AccessToken := str "tok2", Expiry := 0 })) 5000000000
        { provider := { token := some { AccessToken := str "tok1", Expiry := 4000000000 } },
          creds := { AccessKeyID := str "tok1", SecretAccessKey := [], SessionToken := [],
                     ProviderName := [] },
          forceRefresh := false, fetches := 1 }).1.fetches = 2 := by
  decide

/-! ## The claims about the credential provider -/

/-- C1, as stated, fails: a cached token whose expiry equals the current time
is set and not strictly after it, yet `IsExpired` answers `false`; so
`IsExpired` is not "absent, or expiry set and not strictly after now". -/
theorem C1_counterexample :
    GcpTokenProvider.IsExpired
        { token := some { AccessToken := str "tok1", Expiry := 1000 } } 1000 = false ∧
    ¬ (∀ (p : GcpTokenProvider) (now : Time), p.IsExpired now = true ↔
        (p.token = none ∨ ∃ t, p.token = some t ∧ t.Expiry ≠ 0 ∧ ¬ (now < t.Expiry))) := by
  refine ⟨by decide, ?_⟩
  intro hall
  have h1 := (hall { token := some { AccessToken := str "tok1", Expiry := 1000 } } 1000).mpr
    (Or.inr ⟨_, rfl, by decide, by decide⟩)
  revert h1
  decide

/-- C1, amended: `IsExpired` answers `true` exactly when the cached token is
absent, or its expiry is set (not the zero time) and strictly before the
current time; a token whose expiry equals the current time is reported as not
expired. -/
theorem C1_isExpired_iff (p : GcpTokenProvider) (now : Time) (a : GoString) :
    (p.IsExpired now = true ↔
      (p.token = none ∨ ∃ t, p.token = some t ∧ t.Expiry ≠ 0 ∧ t.Expiry < now)) ∧
    GcpTokenProvider.IsExpired { token := some { AccessToken := a, Expiry := now } } now
      = false := by
  constructor
  · obtain ⟨tok⟩ := p
    cases tok with
    | none => simp [GcpTokenProvider.IsExpired]
    | some t =>
      by_cases h0 : t.Expiry = 0
      · simp [GcpTokenProvider.IsExpired, Time.IsZero, h0]
      · by_cases h1 : t.Expiry < now
        · simp [GcpTokenProvider.IsExpired, Time.IsZero, Time.Before, h0, h1]
        · simp [GcpTokenProvider.IsExpired, Time.IsZero, Time.Before, h0, h1]
  · by_cases h0 : now = 0
    · simp [GcpTokenProvider.IsExpired, Time.IsZero, h0]
    · simp [GcpTokenProvider.IsExpired, Time.IsZero, Time.Before, h0]

/-- C7: a cached token whose expiry is unset (the zero time) is not expired at
any current time, and a cached token whose expiry is strictly after the current
time is not expired. -/
theorem C7_not_expired (tok : Token) (now : Time)
    (h : tok.Expiry = 0 ∨ now < tok.Expiry) :
    GcpTokenProvider.IsExpired { token := some tok } now = false := by
  by_cases h0 : tok.Expiry = 0
  · simp [GcpTokenProvider.IsExpired, Time.IsZero, h0]
  · have h1 : now < tok.Expiry := h.resolve_left h0
    have h2 : ¬ tok.Expiry < now := fun h3 => absurd h1 (Int.lt_asymm h3)
    simp [GcpTokenProvider.IsExpired, Time.IsZero, Time.Before, h0, h2]

/-- C7 at an unset expiry a long time later, and at an expiry one second
(10^9 ns) after the current time. -/
theorem C7_not_expired_witness :
    GcpTokenProvider.IsExpired
        { token := some { AccessToken := str "tok1", Expiry := 0 } } 9000000000000000000 = false ∧
    GcpTokenProvider.IsExpired
        { token := some { AccessToken := str "tok1", Expiry := 5000000000 + 1000000000 } }
        5000000000 = false :=
  ⟨C7_not_expired { AccessToken := str "tok1", Expiry := 0 } 9000000000000000000
      (Or.inl rfl),
   C7_not_expired { AccessToken := str "tok1", Expiry := 5000000000 + 1000000000 } 5000000000
      (Or.inr (by decide))⟩

/-- C8: for the credential adapter over `GcpTokenProvider`: before any fetch,
and whenever the provider reports its token absent or expired, the liveness
test fails; when it fails the supplier is called, an error of the supplier is
returned with the cache as it was, and on success the credential, whose
`AccessKeyID` is the fetched access token, is cached and returned; when the test
does not fail the cached credential is returned unchanged without a fetch; and
a second call at the same instant after a successful fetch of a live token
returns the same credential, the supplier having been called once in all. -/
theorem C8_credentials_get (supplier : Nat → Fetch) (now : Time) (c : Credentials) :
    NewCredentials.isExpired now = true ∧
    (c.provider.IsExpired now = true → c.isExpired now = true) ∧
    (c.isExpired now = true → ∀ err,
      supplier c.fetches = .error err ∨ supplier c.fetches = .ok (.error err) →
      Credentials.Get supplier now c = ({ c with fetches := c.fetches + 1 }, .error err)) ∧
    (c.isExpired now = true → ∀ tok, supplier c.fetches = .ok (.ok tok) →
      ∃ v : Value, v.AccessKeyID = tok.AccessToken ∧
        Credentials.Get supplier now c =
          ({ provider := { token := some tok }, creds := v, forceRefresh := false,
             fetches := c.fetches + 1 }, .ok v)) ∧
    (c.isExpired now = false → Credentials.Get supplier now c = (c, .ok c.creds)) ∧
    (c.isExpired now = true → ∀ tok, supplier c.fetches = .ok (.ok tok) →
      GcpTokenProvider.IsExpired { token := some tok } now = false →
      (Credentials.Get supplier now (Credentials.Get supplier now c).1).2
          = (Credentials.Get supplier now c).2 ∧
      (Credentials.Get supplier now (Credentials.Get supplier now c).1).1
          = (Credentials.Get supplier now c).1 ∧
      (Credentials.Get supplier now (Credentials.Get supplier now c).1).1.fetches
          = c.fetches + 1) := by
  refine ⟨rfl, ?_, ?_, ?_, ?_, ?_⟩
  · intro hexp
    simp [Credentials.isExpired, hexp]
  · intro hexp err hs
    rcases hs with hs | hs <;>
      simp [Credentials.Get, hexp, hs, GcpTokenProvider.Retrieve]
  · intro hexp tok hs
    refine ⟨{ AccessKeyID := tok.AccessToken, SecretAccessKey := [], SessionToken := [],
              ProviderName := [] }, rfl, ?_⟩
    simp [Credentials.Get, hexp, hs, GcpTokenProvider.Retrieve]
  · intro hexp
    simp [Credentials.Get, hexp]
  · intro hexp tok hs hlive
    have h1 : Credentials.Get supplier now c =
        ({ provider := { token := some tok },
           creds := { AccessKeyID := tok.AccessToken, SecretAccessKey := [], SessionToken := [],
                      ProviderName := [] },
           forceRefresh := false, fetches := c.fetches + 1 },
         .ok { AccessKeyID := tok.AccessToken, SecretAccessKey := [], SessionToken := [],
               ProviderName := [] }) := by
      simp [Credentials.Get, hexp, hs, GcpTokenProvider.Retrieve]
    rw [h1]
    simp [Credentials.Get, Credentials.isExpired, hlive]

/-- C8 on the fresh adapter at time 1000, the supplier handing out the token
`tok1` that expires at 2000. -/
theorem C8_credentials_get_witness :
    Credentials.Get (fun _ => .ok (.ok { AccessToken := str "tok1", Expiry := 2000 })) 1000
        NewCredentials =
      ({ provider := { token := some { AccessToken := str "tok1", Expiry := 2000 } },
         creds := { AccessKeyID := str "tok1", SecretAccessKey := [], SessionToken := [],
                    ProviderName := [] },
         forceRefresh := false, fetches := 1 },
       .ok { AccessKeyID := str "tok1", SecretAccessKey := [], SessionToken := [],
             ProviderName := [] }) ∧
    (Credentials.Get (fun _ => .ok (.ok { AccessToken := str "tok1", Expiry := 2000 })) 1000
        (Credentials.Get (fun _ => .ok (.ok { AccessToken := str "tok1", Expiry := 2000 })) 1000
          NewCredentials).1).1.fetches = 0 + 1 := by
  have h := C8_credentials_get
    (fun _ => .ok (.ok { AccessToken := str "tok1", Expiry := 2000 })) 1000 NewCredentials
  refine ⟨rfl, ?_⟩
  exact (h.2.2.2.2.2 rfl { AccessToken := str "tok1", Expiry := 2000 } rfl (by decide)).2.2

/-! ## The claim about the handler registration -/

/-- C9: after the registration in `main`, whatever the default handlers were,
the Sign list is exactly the content-length handler followed by
`gcp-oauth2-signer`, the Send list is `aws-to-gcp-headers`, then the default
Send handlers, then `gcp-to-aws-headers`, so that `aws-to-gcp-headers` is its
first and `gcp-to-aws-headers` its last handler, and a request runs through
content length, signer, request rewrite, the default Send handlers (the
transmission among them) and response rewrite, in that order. -/
theorem C9_registerHandlers (hs : Handlers) :
    (registerHandlers hs).Sign = [BuildContentLengthHandler, gcpOauth2SignerHandler] ∧
    (registerHandlers hs).Send
      = awsToGcpHeadersHandler :: (hs.Send ++ [gcpToAwsHeadersHandler]) ∧
    (registerHandlers hs).Send.head? = some awsToGcpHeadersHandler ∧
    (registerHandlers hs).Send.getLast? = some gcpToAwsHeadersHandler ∧
    (registerHandlers hs).runOrder
      = [BuildContentLengthHandler, gcpOauth2SignerHandler, awsToGcpHeadersHandler]
          ++ hs.Send ++ [gcpToAwsHeadersHandler] := by
  refine ⟨rfl, rfl, rfl, ?_, ?_⟩
  · show ((awsToGcpHeadersHandler :: hs.Send) ++ [gcpToAwsHeadersHandler]).getLast? = _
    rw [List.getLast?_append]
    rfl
  · simp [registerHandlers, Handlers.runOrder, HandlerList.PushBackNamed,
      HandlerList.PushFrontNamed, HandlerList.Clear]

/-! ## The claims about the request handlers -/

/-- C2, as stated, fails: a header with two values comes out, under its
`x-goog-` name, with the first value only. -/
theorem C2_counterexample :
    awsToGcpHeaders (fun r => r) [(str "X-Amz-Meta-Key01", [str "foo", str "bar"])]
      = [(str "X-Goog-Meta-Key01", [str "foo"])] ∧
    ¬ (∀ (tbl : Nat → Nat) (h : Header) (k : GoString) (vs : List GoString),
        h.find k = some vs → HasPrefix (ToLower tbl k) (str "x-amz-") = true →
        (awsToGcpHeaders tbl h).find (target tbl (str "x-amz-") (str "x-goog-") k) = some vs ∧
        (awsToGcpHeaders tbl h).find k = none) := by
  refine ⟨by decide, ?_⟩
  intro hall
  have h1 := (hall (fun r => r) [(str "X-Amz-Meta-Key01", [str "foo", str "bar"])]
    (str "X-Amz-Meta-Key01") [str "foo", str "bar"] (by decide) (by decide)).1
  revert h1
  decide

/-- C2, amended: for every header name `k` that the request map stores in
canonical form, that starts with `x-amz-` case-insensitively and that is the
one header of its name (every stored name equal to `k` up to letter case has
`k` as canonical form), after `aws-to-gcp-headers` the map holds,
under the name that is `k` with the prefix replaced by `x-goog-` (up to letter
case), exactly one value, the first value `k` carried (the empty string if it
carried none), and `k` is no longer present.  Lower-casing is taken idempotent,
as the Unicode table is. -/
theorem C2_awsToGcp_renames (tbl : Nat → Nat) (hid : LowerIdempotent tbl)
    (h : Header) (k : GoString) (vs : List GoString)
    (hfind : h.find k = some vs)
    (hp : HasPrefix (ToLower tbl k) (str "x-amz-") = true)
    (hcanon : CanonicalMIMEHeaderKey k = k)
    (hsame : ∀ k1 ∈ h.keys, ToLower tbl k1 = ToLower tbl k → CanonicalMIMEHeaderKey k1 = k) :
    (awsToGcpHeaders tbl h).find (target tbl (str "x-amz-") (str "x-goog-") k)
      = some [vs.headD []] ∧
    (awsToGcpHeaders tbl h).find k = none ∧
    ToLower tbl (target tbl (str "x-amz-") (str "x-goog-") k)
      = str "x-goog-" ++ (ToLower tbl k).drop 6 := by
  have h1 := find_rewrite_renamed tbl hid (str "x-amz-") (str "x-goog-")
    (avoid_amz_goog tbl) h k vs hfind hp hcanon hsame
  exact ⟨h1.1, h1.2,
    ToLower_target_idem tbl hid (str "x-amz-") (str "x-goog-") k (ToLower_goog tbl) hp⟩

/-- C2 (amended) on the request of the spec: `{X-Amz-Acl: private,
X-Amz-Meta-Key01: foo}`, at the header `X-Amz-Acl`. -/
theorem C2_awsToGcp_renames_witness :
    (awsToGcpHeaders (fun r => r)
        [(str "X-Amz-Acl", [str "private"]), (str "X-Amz-Meta-Key01", [str "foo"])]).find
        (target (fun r => r) (str "x-amz-") (str "x-goog-") (str "X-Amz-Acl"))
      = some [[str "private"].headD []] ∧
    (awsToGcpHeaders (fun r => r)
        [(str "X-Amz-Acl", [str "private"]), (str "X-Amz-Meta-Key01", [str "foo"])]).find
        (str "X-Amz-Acl") = none ∧
    ToLower (fun r => r) (target (fun r => r) (str "x-amz-") (str "x-goog-") (str "X-Amz-Acl"))
      = str "x-goog-" ++ (ToLower (fun r => r) (str "X-Amz-Acl")).drop 6 :=
  C2_awsToGcp_renames (fun r => r) LowerIdempotent_id
    [(str "X-Amz-Acl", [str "private"]), (str "X-Amz-Meta-Key01", [str "foo"])]
    (str "X-Amz-Acl") [str "private"] (by decide) (by decide) (by decide) (by decide)

/-- C3 at the request header map `{x-amz-acl: [private]}`, whose key is stored
in lower case: the claim says that after `aws-to-gcp-headers` no key of the map
starts with `x-amz-` when lower-cased, and so does the comment
`// remove "x-amz-*" headers` of the deleting loop; the loop tests the stored key
`x-amz-acl` and calls `Del` with it, which deletes the canonical key
`X-Amz-Acl`, so the stored key is still a key of the map (and the copying loop,
which read the value through `Get`, has stored the empty string under
`X-Goog-Acl`). -/
theorem C3_lowercase_key_left :
    awsToGcpHeaders (fun r => r) [(str "x-amz-acl", [str "private"])]
      = [(str "X-Goog-Acl", [[]]), (str "x-amz-acl", [str "private"])] ∧
    str "x-amz-acl" ∈ (awsToGcpHeaders (fun r => r) [(str "x-amz-acl", [str "private"])]).keys ∧
    HasPrefix (ToLower (fun r => r) (str "x-amz-acl")) (str "x-amz-") = true := by
  decide

/-- The deleting loop does what its comment says on the maps `Header.Set` and
`Header.Add` build: when the stored keys that start with `x-amz-`
case-insensitively are in canonical form, no key of the map starts with
`x-amz-` when lower-cased after `aws-to-gcp-headers`. -/
theorem no_amz_left_of_canonical (tbl : Nat → Nat) (h : Header)
    (hcanon : ∀ k ∈ h.keys, HasPrefix (ToLower tbl k) (str "x-amz-") = true →
      CanonicalMIMEHeaderKey k = k) :
    ∀ q ∈ (awsToGcpHeaders tbl h).keys, HasPrefix (ToLower tbl q) (str "x-amz-") = false :=
  fun q hq => rewrite_no_src tbl (str "x-amz-") (str "x-goog-") (avoid_amz_goog tbl) h hcanon q hq

/-- The same on a request with two `X-Amz-` headers and one other header, at
the key `X-Goog-Acl` of the result. -/
theorem no_amz_left_of_canonical_example :
    str "X-Goog-Acl" ∈ (awsToGcpHeaders (fun r => r)
        [(str "X-Amz-Acl", [str "private"]), (str "Content-Length", [str "11"]),
         (str "X-Amz-Meta-Key01", [str "foo"])]).keys ∧
    HasPrefix (ToLower (fun r => r) (str "X-Goog-Acl")) (str "x-amz-") = false :=
  ⟨by decide,
   no_amz_left_of_canonical (fun r => r)
    [(str "X-Amz-Acl", [str "private"]), (str "Content-Length", [str "11"]),
     (str "X-Amz-Meta-Key01", [str "foo"])] (by decide) (str "X-Goog-Acl") (by decide)⟩

/-- C6: for every request header map and every credential the lookup
returned, after `gcp-oauth2-signer` the `Authorization` header has exactly one
value, `"Bearer "` followed by the access token, whatever it held before, and
`aws-to-gcp-headers` leaves that header as it is. -/
theorem C6_authorization (tbl : Nat → Nat) (h : Header) (v : Value) (projectId : GoString) :
    ∃ h1, gcpOauth2Signer (.ok v) projectId h = some h1 ∧
      h1.find (str "Authorization") = some [str "Bearer " ++ v.AccessKeyID] ∧
      (awsToGcpHeaders tbl h1).find (str "Authorization")
        = some [str "Bearer " ++ v.AccessKeyID] := by
  have hsig : ((h.Set (str "Authorization") (str "Bearer " ++ v.AccessKeyID)).Set
      (str "x-goog-project-id") projectId).find (str "Authorization")
      = some [str "Bearer " ++ v.AccessKeyID] := by
    rw [find_Set, find_Set]
    have h1 : CanonicalMIMEHeaderKey (str "x-goog-project-id") ≠ str "Authorization" := by
      decide
    have h2 : CanonicalMIMEHeaderKey (str "Authorization") = str "Authorization" := by
      decide
    rw [if_neg h1, if_pos h2]
  refine ⟨_, rfl, hsig, ?_⟩
  unfold awsToGcpHeaders
  rw [find_rewrite_other tbl (str "x-amz-") (str "x-goog-") (avoid_amz_goog tbl)
    (ToLower_goog tbl) _ (str "Authorization")
    (by simp [str, ToLower, unicodeToLower, HasPrefix, List.isPrefixOf])
    (by simp [str, ToLower, unicodeToLower, HasPrefix, List.isPrefixOf])]
  exact hsig

/-- C10, as stated, fails: when the request carries `X-Amz-Project-Id: other`,
after the signer with project `my-project` and `aws-to-gcp-headers` the
`X-Goog-Project-Id` header holds `other`. -/
theorem C10_counterexample :
    (gcpOauth2Signer
        (.ok { AccessKeyID := str "tok1", SecretAccessKey := [], SessionToken := [],
               ProviderName := [] })
        (str "my-project") [(str "X-Amz-Project-Id", [str "other"])]).map
      (fun h1 => (awsToGcpHeaders (fun r => r) h1).find (str "X-Goog-Project-Id"))
      = some (some [str "other"]) ∧
    str "other" ≠ str "my-project" := by
  decide

/-- C10, amended: for every request header map that stores no name equal to
`x-amz-project-id` up to letter case, and every configured project, after
`gcp-oauth2-signer` followed by `aws-to-gcp-headers` the `X-Goog-Project-Id`
header has the single value `projectId`.  Lower-casing is taken idempotent, as
the Unicode table is. -/
theorem C10_project_id (tbl : Nat → Nat) (hid : LowerIdempotent tbl)
    (h : Header) (v : Value) (projectId : GoString)
    (hno : ∀ k ∈ h.keys, ToLower tbl k ≠ str "x-amz-project-id") :
    ∃ h1, gcpOauth2Signer (.ok v) projectId h = some h1 ∧
      h1.find (str "X-Goog-Project-Id") = some [projectId] ∧
      (awsToGcpHeaders tbl h1).find (str "X-Goog-Project-Id") = some [projectId] := by
  have hc : CanonicalMIMEHeaderKey (str "x-goog-project-id") = str "X-Goog-Project-Id" := by
    decide
  have hsig : ((h.Set (str "Authorization") (str "Bearer " ++ v.AccessKeyID)).Set
      (str "x-goog-project-id") projectId).find (str "X-Goog-Project-Id")
      = some [projectId] := by
    rw [find_Set, if_pos hc]
  refine ⟨_, rfl, hsig, ?_⟩
  unfold awsToGcpHeaders
  rw [find_rewrite_frame tbl (str "x-amz-") (str "x-goog-") (avoid_amz_goog tbl)]
  · exact hsig
  · intro k hk hp heq
    have hkh : k ∈ h.keys := by
      rcases mem_keys_Set _ _ _ _ hk with h1 | h1
      · rw [h1] at hp
        revert hp
        simp [str, ToLower, unicodeToLower, HasPrefix, List.isPrefixOf,
          CanonicalMIMEHeaderKey, canonicalCase, validHeaderFieldByte]
      · rcases mem_keys_Set _ _ _ _ h1 with h2 | h2
        · rw [h2] at hp
          revert hp
          simp [str, ToLower, unicodeToLower, HasPrefix, List.isPrefixOf,
            CanonicalMIMEHeaderKey, canonicalCase, validHeaderFieldByte]
        · exact h2
    have h3 := ToLower_target_idem tbl hid (str "x-amz-") (str "x-goog-") k (ToLower_goog tbl) hp
    rw [heq] at h3
    have h4 : ToLower tbl (str "X-Goog-Project-Id") = str "x-goog-" ++ str "project-id" := by
      simp [str, ToLower, unicodeToLower]
    rw [h4] at h3
    have h5 := List.append_cancel_left h3
    have h6 := eq_append_of_HasPrefix _ _ hp
    rw [← h5] at h6
    apply hno k hkh
    rw [h6]
    decide
  · intro k _ hp heq
    have h1 : HasPrefix (ToLower tbl (CanonicalMIMEHeaderKey k)) (str "x-amz-") = true := by
      rw [ToLower_canonical]; exact hp
    rw [heq] at h1
    revert h1
    simp [str, ToLower, unicodeToLower, HasPrefix, List.isPrefixOf]

/-- C10 (amended) on a request with an `X-Amz-Acl` header and the project
`my-project`. -/
theorem C10_project_id_witness :
    ∃ h1, gcpOauth2Signer
        (.ok { AccessKeyID := str "tok1", SecretAccessKey := [], SessionToken := [],
               ProviderName := [] })
        (str "my-project") [(str "X-Amz-Acl", [str "private"])] = some h1 ∧
      h1.find (str "X-Goog-Project-Id") = some [str "my-project"] ∧
      (awsToGcpHeaders (fun r => r) h1).find (str "X-Goog-Project-Id")
        = some [str "my-project"] :=
  C10_project_id (fun r => r) LowerIdempotent_id [(str "X-Amz-Acl", [str "private"])]
    { AccessKeyID := str "tok1", SecretAccessKey := [], SessionToken := [], ProviderName := [] }
    (str "my-project") (by decide)

/-- C4, as stated, fails.  A header with two values, `foo` and `bar`, contains
the value `bar`; the request rewrite keeps `foo` only under the `x-goog-` name,
and the response rewrite, on a map that carries the `x-goog-` name with both
values, keeps `foo` only under the `x-amz-` name: the value `bar` does not make
the round trip.  And on a request whose key is stored in lower case,
`x-amz-acl`, the request rewrite stores the empty string under `X-Goog-Acl`,
which the response rewrite hands back under `X-Amz-Acl`: the value `private` is
lost. -/
theorem C4_counterexample :
    awsToGcpHeaders (fun r => r) [(str "X-Amz-Meta-Key01", [str "foo", str "bar"])]
      = [(str "X-Goog-Meta-Key01", [str "foo"])] ∧
    gcpToAwsHeaders (fun r => r) [(str "X-Goog-Meta-Key01", [str "foo", str "bar"])]
      = [(str "X-Amz-Meta-Key01", [str "foo"])] ∧
    (∀ e ∈ gcpToAwsHeaders (fun r => r) [(str "X-Goog-Meta-Key01", [str "foo", str "bar"])],
      str "bar" ∉ e.2) ∧
    awsToGcpHeaders (fun r => r) [(str "x-amz-acl", [str "private"])]
      = [(str "X-Goog-Acl", [[]]), (str "x-amz-acl", [str "private"])] ∧
    gcpToAwsHeaders (fun r => r) [(str "X-Goog-Acl", [[]])]
      = [(str "X-Amz-Acl", [[]])] := by
  decide

/-- C4, amended: for every header name `k` that starts with `x-amz-`
case-insensitively and every value `v`: when the request map holds the header
`k` with first value `v` under the canonical key of `k`, which is the canonical
form of every stored name equal to `k` up to letter case, `aws-to-gcp-headers`
leaves `v` as the single value under the corresponding `x-goog-` name and
removes `k`; and when a response map carries that `x-goog-` name with first
value `v`, as the one header of that name, `gcp-to-aws-headers` yields a map
that holds the single value `v` under a name equal to `k` up to letter case.
Lower-casing is taken idempotent, as the Unicode table is. -/
theorem C4_round_trip (tbl : Nat → Nat) (hid : LowerIdempotent tbl)
    (req resp : Header) (k v : GoString) (vs ws : List GoString)
    (hp : HasPrefix (ToLower tbl k) (str "x-amz-") = true)
    (hreq : req.find (CanonicalMIMEHeaderKey k) = some (v :: vs))
    (hreqSame : ∀ k1 ∈ req.keys, ToLower tbl k1 = ToLower tbl k →
      CanonicalMIMEHeaderKey k1 = CanonicalMIMEHeaderKey k)
    (hresp : resp.find (target tbl (str "x-amz-") (str "x-goog-") k) = some (v :: ws))
    (hrespSame : ∀ k1 ∈ resp.keys,
      ToLower tbl k1 = ToLower tbl (target tbl (str "x-amz-") (str "x-goog-") k) →
      CanonicalMIMEHeaderKey k1 = target tbl (str "x-amz-") (str "x-goog-") k) :
    (awsToGcpHeaders tbl req).find (target tbl (str "x-amz-") (str "x-goog-") k) = some [v] ∧
    (awsToGcpHeaders tbl req).find (CanonicalMIMEHeaderKey k) = none ∧
    (gcpToAwsHeaders tbl resp).find
        (target tbl (str "x-goog-") (str "x-amz-")
          (target tbl (str "x-amz-") (str "x-goog-") k)) = some [v] ∧
    ToLower tbl (target tbl (str "x-goog-") (str "x-amz-")
        (target tbl (str "x-amz-") (str "x-goog-") k)) = ToLower tbl k := by
  have hpc : HasPrefix (ToLower tbl (CanonicalMIMEHeaderKey k)) (str "x-amz-") = true := by
    rw [ToLower_canonical]; exact hp
  have hout := find_rewrite_renamed tbl hid (str "x-amz-") (str "x-goog-")
    (avoid_amz_goog tbl) req (CanonicalMIMEHeaderKey k) (v :: vs) hreq hpc
    (canonical_idem k)
    (fun k1 hk1 hl => hreqSame k1 hk1 (by rw [hl, ToLower_canonical]))
  rw [target_canonical] at hout
  have hpg : HasPrefix (ToLower tbl (target tbl (str "x-amz-") (str "x-goog-") k))
      (str "x-goog-") = true :=
    target_has_dst_prefix tbl (str "x-amz-") (str "x-goog-") k (ToLower_goog tbl) hp
  have hin := find_rewrite_renamed tbl hid (str "x-goog-") (str "x-amz-")
    (avoid_goog_amz tbl) resp (target tbl (str "x-amz-") (str "x-goog-") k) (v :: ws)
    hresp hpg (canonical_target tbl _ _ k) hrespSame
  refine ⟨hout.1, hout.2, hin.1, ?_⟩
  rw [ToLower_target_idem tbl hid (str "x-goog-") (str "x-amz-") _ (ToLower_amz tbl) hpg,
    ToLower_target_idem tbl hid (str "x-amz-") (str "x-goog-") k (ToLower_goog tbl) hp]
  have h7 : (str "x-goog-").length = 7 := by decide
  have h6 : (str "x-amz-").length = 6 := by decide
  rw [h7, h6]
  have hd : (str "x-goog-" ++ List.drop 6 (ToLower tbl k)).drop 7
      = List.drop 6 (ToLower tbl k) := by
    rw [← h7]
    exact List.drop_left _ _
  rw [hd]
  have h8 := eq_append_of_HasPrefix _ _ hp
  rw [h6] at h8
  exact h8.symm

/-- C4 (amended) on the header name `x-amz-acl`, a request that stores
`X-Amz-Acl: [private, public-read]` and a response that carries
`X-Goog-Acl: [private]` beside a `Content-Length` header. -/
theorem C4_round_trip_witness :
    (awsToGcpHeaders (fun r => r) [(str "X-Amz-Acl", [str "private", str "public-read"])]).find
        (target (fun r => r) (str "x-amz-") (str "x-goog-") (str "x-amz-acl"))
      = some [str "private"] ∧
    (awsToGcpHeaders (fun r => r) [(str "X-Amz-Acl", [str "private", str "public-read"])]).find
        (CanonicalMIMEHeaderKey (str "x-amz-acl")) = none ∧
    (gcpToAwsHeaders (fun r => r)
        [(str "Content-Length", [str "11"]), (str "X-Goog-Acl", [str "private"])]).find
        (target (fun r => r) (str "x-goog-") (str "x-amz-")
          (target (fun r => r) (str "x-amz-") (str "x-goog-") (str "x-amz-acl")))
      = some [str "private"] ∧
    ToLower (fun r => r) (target (fun r => r) (str "x-goog-") (str "x-amz-")
        (target (fun r => r) (str "x-amz-") (str "x-goog-") (str "x-amz-acl")))
      = ToLower (fun r => r) (str "x-amz-acl") :=
  C4_round_trip (fun r => r) LowerIdempotent_id
    [(str "X-Amz-Acl", [str "private", str "public-read"])]
    [(str "Content-Length", [str "11"]), (str "X-Goog-Acl", [str "private"])]
    (str "x-amz-acl") (str "private") [str "public-read"] []
    (by decide) (by decide) (by decide) (by decide) (by decide)

/-- C5, as stated, fails: of the two values of an `X-Goog-Hash` response
header only the first is left after `gcp-to-aws-headers`, and the value of an
`X-Amz-Foo` header that an `X-Goog-Foo` header is renamed onto is lost. -/
theorem C5_counterexample :
    gcpToAwsHeaders (fun r => r) [(str "X-Goog-Hash", [str "crc32c=n03x6A==", str "md5=Ojk9c3=="])]
      = [(str "X-Amz-Hash", [str "crc32c=n03x6A=="])] ∧
    (∀ e ∈ gcpToAwsHeaders (fun r => r)
        [(str "X-Goog-Hash", [str "crc32c=n03x6A==", str "md5=Ojk9c3=="])],
      str "md5=Ojk9c3==" ∉ e.2) ∧
    gcpToAwsHeaders (fun r => r)
        [(str "X-Goog-Foo", [str "new"]), (str "X-Amz-Foo", [str "old"])]
      = [(str "X-Amz-Foo", [str "new"])] ∧
    (∀ e ∈ gcpToAwsHeaders (fun r => r)
        [(str "X-Goog-Foo", [str "new"]), (str "X-Amz-Foo", [str "old"])],
      str "old" ∉ e.2) := by
  decide

/-- C5, amended: for every response header map whose stored names that start
with `x-goog-` case-insensitively are in canonical form and are the only stored
spelling of their name, after `gcp-to-aws-headers`: every such header is present
under the corresponding `x-amz-` name with exactly one value, its first value
(the empty string if it had none); no key that starts with `x-goog-` remains;
and every header whose name does not start with `x-goog-` and is not the
`x-amz-` name of a renamed header keeps all its values.  Lower-casing is taken
idempotent, as the Unicode table is. -/
theorem C5_gcpToAws (tbl : Nat → Nat) (hid : LowerIdempotent tbl) (resp : Header)
    (hcanon : ∀ k ∈ resp.keys, HasPrefix (ToLower tbl k) (str "x-goog-") = true →
      CanonicalMIMEHeaderKey k = k)
    (huniq : ∀ k ∈ resp.keys, HasPrefix (ToLower tbl k) (str "x-goog-") = true →
      ∀ k1 ∈ resp.keys, ToLower tbl k1 = ToLower tbl k → k1 = k) :
    (∀ k vs, resp.find k = some vs → HasPrefix (ToLower tbl k) (str "x-goog-") = true →
      (gcpToAwsHeaders tbl resp).find (target tbl (str "x-goog-") (str "x-amz-") k)
        = some [vs.headD []] ∧
      ToLower tbl (target tbl (str "x-goog-") (str "x-amz-") k)
        = str "x-amz-" ++ (ToLower tbl k).drop 7) ∧
    (∀ q ∈ (gcpToAwsHeaders tbl resp).keys,
      HasPrefix (ToLower tbl q) (str "x-goog-") = false) ∧
    (∀ q, HasPrefix (ToLower tbl q) (str "x-goog-") = false →
      (∀ k ∈ resp.keys, HasPrefix (ToLower tbl k) (str "x-goog-") = true →
        target tbl (str "x-goog-") (str "x-amz-") k ≠ q) →
      (gcpToAwsHeaders tbl resp).find q = resp.find q) := by
  refine ⟨?_, ?_, ?_⟩
  · intro k vs hfind hp
    have hk : k ∈ resp.keys := by
      rw [mem_keys_iff, hfind]
      exact Option.some_ne_none vs
    have h1 := find_rewrite_renamed tbl hid (str "x-goog-") (str "x-amz-")
      (avoid_goog_amz tbl) resp k vs hfind hp (hcanon k hk hp)
      (fun k1 hk1 hl => by
        have h2 := huniq k hk hp k1 hk1 hl
        rw [h2]
        exact hcanon k hk hp)
    exact ⟨h1.1,
      ToLower_target_idem tbl hid (str "x-goog-") (str "x-amz-") k (ToLower_amz tbl) hp⟩
  · intro q hq
    exact rewrite_no_src tbl (str "x-goog-") (str "x-amz-") (avoid_goog_amz tbl) resp
      hcanon q hq
  · intro q hq ht
    apply find_rewrite_frame tbl (str "x-goog-") (str "x-amz-") (avoid_goog_amz tbl)
      resp q ht
    intro k _ hp heq
    rw [← heq, ToLower_canonical, hp] at hq
    exact Bool.noConfusion hq

/-- C5 (amended) on the response of the spec, `{X-Goog-Generation: 17}`, with a
`Content-Type` header beside it: the renamed header, the key `X-Amz-Generation`
of the result, and the header `Content-Type`. -/
theorem C5_gcpToAws_witness :
    (gcpToAwsHeaders (fun r => r)
        [(str "X-Goog-Generation", [str "17"]), (str "Content-Type", [str "text/plain"])]).find
        (target (fun r => r) (str "x-goog-") (str "x-amz-") (str "X-Goog-Generation"))
      = some [[str "17"].headD []] ∧
    HasPrefix (ToLower (fun r => r) (str "X-Amz-Generation")) (str "x-goog-") = false ∧
    (gcpToAwsHeaders (fun r => r)
        [(str "X-Goog-Generation", [str "17"]), (str "Content-Type", [str "text/plain"])]).find
        (str "Content-Type")
      = Header.find
          [(str "X-Goog-Generation", [str "17"]), (str "Content-Type", [str "text/plain"])]
          (str "Content-Type") :=
  have h := C5_gcpToAws (fun r => r) LowerIdempotent_id
    [(str "X-Goog-Generation", [str "17"]), (str "Content-Type", [str "text/plain"])]
    (by decide) (by decide)
  ⟨(h.1 (str "X-Goog-Generation") [str "17"] (by decide) (by decide)).1,
    h.2.1 (str "X-Amz-Generation") (by decide),
    h.2.2 (str "Content-Type") (by decide) (by decide)⟩

end GcsAwsOauth2
